import Mathlib

/-!
Shallow embedding of the Reptile meta-learning notebook
(`automated_machine_learning_torch_reptile.py`).

The engine (`Reptile.train`, `Reptile.eval`, `Reptile.loss`, `Reptile.predict`)
is embedded generically over a linear ordered field `R`; the external function
approximator (forward pass and reverse-mode gradient of the MSE loss, supplied
by PyTorch in the source) is an `Oracle`, and every random draw the source takes
from `np.random` (per-step permutations, evaluation index draws, uniform task
parameters) is an explicit input.  A parameter `state_dict` (name-to-tensor
mapping) is flattened to a function from an abstract coordinate type `ι` to `R`;
`deepcopy` of a state dict is the identity on these immutable values, and
`load_state_dict` is replacement of the parameter function.
-/

/-- Construction-time configuration of the `Reptile` class (`__init__`,
reading `params[0]` .. `params[6]` in source order). -/
structure Config (R : Type) where
  inner_step_size : R
  inner_batch_size : ℕ
  outer_step_size : R
  outer_iterations : ℕ
  meta_batch_size : ℕ
  eval_iterations : ℕ
  eval_batch_size : ℕ

/-- External function approximator: forward evaluation of the model at one
scalar input, and the reverse-mode gradient of the MSE batch loss with respect
to every parameter coordinate (what `batch_loss.backward()` leaves in
`theta.grad.data`). -/
structure Oracle (ι R : Type) where
  forward : (ι → R) → R → R
  gradLoss : (ι → R) → List R → List R → ι → R

/-- Mutable run state of the engine: the model's parameters plus the
accumulated loss sum and batch counter set by `reset`. -/
structure RunState (ι R : Type) where
  params : ι → R
  current_loss : R
  current_batch : ℕ

namespace Reptile

variable {ι R : Type} [LinearOrderedField R]

/-- `Reptile.predict`: forward pass of the model over a batch of inputs. -/
def predict (M : Oracle ι R) (θ : ι → R) (xs : List R) : List R :=
  xs.map (M.forward θ)

/-- `Reptile.loss`: mean-squared error between the model's predictions on `x`
and the targets `y` (`nn.MSELoss` with mean reduction). -/
def loss (M : Oracle ι R) (θ : ι → R) (x y : List R) : R :=
  ((x.zip y).map (fun p => (M.forward θ p.1 - p.2) ^ 2)).sum / ((x.zip y).length : R)

/-- One gradient-descent parameter update, `theta.data -= eta * theta.grad.data`
applied to every parameter (source lines 128-134 and 213-219). -/
def gradStep (M : Oracle ι R) (eta : R) (θ : ι → R) (x y : List R) : ι → R :=
  fun k => θ k - eta * M.gradLoss θ x y k

/-- The batch offsets visited by `range(0, n, m)` in the inner loop:
`0, m, 2m, ...` below `n`, i.e. `ceil(n / m)` many starts. -/
def batchStarts (n m : ℕ) : List ℕ :=
  (List.range ((n + m - 1) / m)).map (fun j => j * m)

/-- The nested inner-loop iteration space: pairs `(inner_iteration, batch)` in
the order visited by `for inner_iteration in range(ibs): for batch in
range(0, n, m)`. -/
def innerSchedule : ℕ → ℕ → ℕ → List (ℕ × ℕ)
  | 0, _, _ => []
  | j + 1, n, m => innerSchedule j n m ++ (batchStarts n m).map (fun b => (j, b))

/-- Body of the inner training loop (source lines 117-139): slice the window
`perm[batch : batch + meta_batch_size]` out of a fresh permutation, compute the
batch loss at the current parameters, apply one gradient step, and accumulate
the loss sum and batch counter. -/
def innerStep (M : Oracle ι R) (cfg : Config R) (ss samples : List R)
    (perm : List ℕ) (b : ℕ) (st : RunState ι R) : RunState ι R :=
  let idx := (perm.drop b).take cfg.meta_batch_size
  let x := idx.map (fun i => ss.getD i 0)
  let y := idx.map (fun i => samples.getD i 0)
  ⟨gradStep M cfg.inner_step_size st.params x y,
   st.current_loss + loss M st.params x y,
   st.current_batch + 1⟩

/-- Runs `innerStep` over a schedule of `(inner_iteration, batch)` pairs,
drawing the fresh permutation `perms t` at the `t`-th step. -/
def innerLoopAux (M : Oracle ι R) (cfg : Config R) (ss samples : List R)
    (perms : ℕ → List ℕ) : List (ℕ × ℕ) → ℕ → RunState ι R → ℕ × RunState ι R
  | [], t, st => (t, st)
  | jb :: rest, t, st =>
      innerLoopAux M cfg ss samples perms rest (t + 1)
        (innerStep M cfg ss samples (perms t) jb.2 st)

/-- The full inner training loop of one outer iteration (source lines 114-139). -/
def innerLoop (M : Oracle ι R) (cfg : Config R) (ss samples : List R)
    (perms : ℕ → List ℕ) (st : RunState ι R) : RunState ι R :=
  (innerLoopAux M cfg ss samples perms
    (innerSchedule cfg.inner_batch_size ss.length cfg.meta_batch_size) 0 st).2

/-- The linear cooling coefficient of source line 142:
`alpha = outer_step_size * (1 - outer_iteration / outer_iterations)`. -/
def alphaCoef (s : R) (N i : ℕ) : R := s * (1 - (i : R) / (N : R))

/-- One outer iteration of `train` (source lines 105-156): snapshot
`current_weights`, run the inner loop, interpolate
`current + alpha * (candidate - current)` elementwise, load the result, and
emit the running-mean loss metric for this iteration. -/
def outerIteration (M : Oracle ι R) (cfg : Config R) (ss samples : List R)
    (perms : ℕ → List ℕ) (i : ℕ) (st : RunState ι R) : RunState ι R × (R × ℕ) :=
  let current_weights := st.params
  let st1 := innerLoop M cfg ss samples perms st
  let alpha := alphaCoef cfg.outer_step_size cfg.outer_iterations i
  let candidate_weights := st1.params
  (⟨fun k => current_weights k + alpha * (candidate_weights k - current_weights k),
    st1.current_loss, st1.current_batch⟩,
   (st1.current_loss / (st1.current_batch : R), i))

/-- One step of the outer fold: run `outerIteration i` on the state and append
its metric record to the log. -/
def trainStep (M : Oracle ι R) (cfg : Config R) (ss : List R)
    (tasks : ℕ → List R) (perms : ℕ → ℕ → List ℕ)
    (acc : RunState ι R × List (R × ℕ)) (i : ℕ) : RunState ι R × List (R × ℕ) :=
  let p := outerIteration M cfg ss (tasks i) (perms i) i acc.1
  (p.1, acc.2 ++ [p.2])

/-- State and emitted metric records of `train` after its first `n` outer
iterations, starting from the state `reset` leaves (`params = θ₀`,
`current_loss = 0`, `current_batch = 0`).  `tasks i` is the target sequence the
task sampler returns at outer iteration `i`, and `perms i t` the `t`-th fresh
permutation drawn inside that iteration. -/
def trainAfter (M : Oracle ι R) (cfg : Config R) (ss : List R)
    (tasks : ℕ → List R) (perms : ℕ → ℕ → List ℕ) (θ₀ : ι → R) (n : ℕ) :
    RunState ι R × List (R × ℕ) :=
  (List.range n).foldl (trainStep M cfg ss tasks perms) (⟨θ₀, 0, 0⟩, [])

/-- `Reptile.train`: `reset()` followed by `outer_iterations` outer iterations.
Returns the final run state and the list of metric records sent to the sink. -/
def train (M : Oracle ι R) (cfg : Config R) (ss : List R)
    (tasks : ℕ → List R) (perms : ℕ → ℕ → List ℕ) (θ₀ : ι → R) :
    RunState ι R × List (R × ℕ) :=
  trainAfter M cfg ss tasks perms θ₀ cfg.outer_iterations

/-- `sample_points`: look up the drawn indices `idx` (the `np.random.choice`
draw, supplied as input) in the sample space and the task targets. -/
def sample_points (ss targets : List R) (idx : List ℕ) : List R × List R :=
  (idx.map (fun i => ss.getD i 0), idx.map (fun i => targets.getD i 0))

/-- The adaptation loop of `Reptile.eval` (source lines 206-222): parameters
and the list of prediction snapshots appended after each of the first `s`
gradient steps.  Each step uses the construction-time `self.inner_step_size`,
exactly as source line 219 does. -/
def evalAdapt (M : Oracle ι R) (cfg : Config R) (ss x y : List R)
    (θ : ι → R) : ℕ → (ι → R) × List (List R)
  | 0 => (θ, [])
  | s + 1 =>
      let p := evalAdapt M cfg ss x y θ s
      let θ2 := gradStep M cfg.inner_step_size p.1 x y
      (θ2, p.2 ++ [predict M θ2 ss])

/-- `Reptile.eval` (source lines 190-232): draw evaluation points, record the
pre-adaptation prediction, snapshot `meta_weights`, adapt for `gradient_steps`
steps, compute the evaluation loss, and restore `meta_weights` before
returning.  The returned triple is (`estimate` trace, `evaluation_loss`, the
model's parameter state after the call).  The `inner_step_size` argument of the
source method is accepted but, as in the source, never read. -/
def eval (M : Oracle ι R) (cfg : Config R) (ss base_truth : List R)
    (idx : List ℕ) (meta_batch_size gradient_steps : ℕ) (inner_step_size : R)
    (θ : ι → R) : List (List R) × R × (ι → R) :=
  let xy := sample_points ss base_truth idx
  let estimate0 := predict M θ ss
  let meta_weights := θ
  let meta_loss := loss M θ xy.1 xy.2
  let p := evalAdapt M cfg ss xy.1 xy.2 θ gradient_steps
  let estimate_loss := loss M p.1 xy.1 xy.2
  (estimate0 :: p.2, |meta_loss - estimate_loss| / (meta_batch_size : R), meta_weights)

end Reptile

/-- The task kinds a caller can request.  The source compares the requested
task against the one supported family (`task is not logistic`); `sine` and
`linear` stand for any unsupported request. -/
inductive TaskKind where
  | logistic
  | sine
  | linear
  deriving DecidableEq

/-- The failure `sample` raises for an unsupported task kind
(`raise NotImplementedError`; the spec names it `UnsupportedTaskKind`). -/
inductive SampleError where
  | notImplementedError
  deriving DecidableEq

/-- The logistic task family (source lines 264-266):
`theta[0] / (1 + np.exp(-1 * theta[1] * (x - theta[2])))`. -/
noncomputable def logistic (x : ℝ) (theta : List ℝ) : ℝ :=
  theta.getD 0 0 / (1 + Real.exp (-1 * theta.getD 1 0 * (x - theta.getD 2 0)))

/-- `sample` (source lines 270-281): reject any task kind other than the
logistic family, otherwise draw `theta = [u1, u2, u3]` (the three
`np.random.uniform` draws, supplied as inputs) and evaluate the task over the
fixed sample space. -/
noncomputable def sample (task : TaskKind) (sample_space : List ℝ)
    (u1 u2 u3 : ℝ) : Except SampleError (List ℝ × List ℝ) :=
  if task ≠ TaskKind.logistic then
    Except.error SampleError.notImplementedError
  else
    Except.ok (sample_space.map (fun x => logistic x [u1, u2, u3]), [u1, u2, u3])

/-- `meta_sample` (source lines 289-293): `np.linspace(-radius, radius, count)`,
the value at position `i` being `-radius + i * (2 * radius / (count - 1))`. -/
def meta_sample {R : Type} [Field R] (radius : R) (count : ℕ) : List R :=
  (List.range count).map
    (fun i : ℕ => -radius + (i : R) * (2 * radius / ((count : R) - 1)))

/-- A concrete one-parameter oracle over `ℚ` for witnesses: the forward pass
reveals the single parameter and the gradient is constantly `1`. -/
def demoOracle : Oracle Unit ℚ := ⟨fun θ _ => θ (), fun _ _ _ _ => 1⟩

/-- Witness configuration with `outer_step_size = 0` (so every `alpha` is 0). -/
def cfgZero : Config ℚ := ⟨1, 1, 0, 3, 1, 0, 0⟩

/-- Witness configuration with `outer_iterations = 0`. -/
def cfgNoIter : Config ℚ := ⟨1, 1, 1, 0, 1, 0, 0⟩

/-- Witness configuration with `inner_batch_size = 1` and `meta_batch_size = 2`. -/
def cfgBatch : Config ℚ := ⟨1, 1, 1, 1, 2, 0, 0⟩

/-- Configuration for the `eval` step-size counterexample: construction-time
`inner_step_size = 1`. -/
def cfgEval : Config ℚ := ⟨1, 1, 1, 1, 1, 0, 0⟩

/-- Witness run state with the single parameter at `0` and fresh counters. -/
def demoState : RunState Unit ℚ := ⟨fun _ => 0, 0, 0⟩

/-- Claim C1: at the end of every outer iteration of `train`, the new
meta-parameters equal `current_weights + alpha * (candidate_weights -
current_weights)` elementwise, where `current_weights` is the pre-iteration
snapshot and `candidate_weights` the post-inner-loop parameters; for
`alpha = 0` the post-update parameters equal `current_weights` exactly, and for
`alpha = 1` they equal `candidate_weights` exactly. -/
theorem train_interpolation_step {ι R : Type} [LinearOrderedField R]
    (M : Oracle ι R) (cfg : Config R) (ss : List R) (tasks : ℕ → List R)
    (perms : ℕ → ℕ → List ℕ) (θ₀ : ι → R) (i : ℕ) :
    Reptile.train M cfg ss tasks perms θ₀
      = Reptile.trainAfter M cfg ss tasks perms θ₀ cfg.outer_iterations
    ∧ (Reptile.trainAfter M cfg ss tasks perms θ₀ (i + 1)).1.params
        = (fun k => (Reptile.trainAfter M cfg ss tasks perms θ₀ i).1.params k
            + Reptile.alphaCoef cfg.outer_step_size cfg.outer_iterations i
              * ((Reptile.innerLoop M cfg ss (tasks i) (perms i)
                    (Reptile.trainAfter M cfg ss tasks perms θ₀ i).1).params k
                 - (Reptile.trainAfter M cfg ss tasks perms θ₀ i).1.params k))
    ∧ (Reptile.alphaCoef cfg.outer_step_size cfg.outer_iterations i = 0 →
        (Reptile.trainAfter M cfg ss tasks perms θ₀ (i + 1)).1.params
          = (Reptile.trainAfter M cfg ss tasks perms θ₀ i).1.params)
    ∧ (Reptile.alphaCoef cfg.outer_step_size cfg.outer_iterations i = 1 →
        (Reptile.trainAfter M cfg ss tasks perms θ₀ (i + 1)).1.params
          = (Reptile.innerLoop M cfg ss (tasks i) (perms i)
              (Reptile.trainAfter M cfg ss tasks perms θ₀ i).1).params) := by
  have hsucc : Reptile.trainAfter M cfg ss tasks perms θ₀ (i + 1)
      = Reptile.trainStep M cfg ss tasks perms
          (Reptile.trainAfter M cfg ss tasks perms θ₀ i) i := by
    unfold Reptile.trainAfter
    rw [List.range_succ, List.foldl_append, List.foldl_cons, List.foldl_nil]
  have hmain : (Reptile.trainAfter M cfg ss tasks perms θ₀ (i + 1)).1.params
      = (fun k => (Reptile.trainAfter M cfg ss tasks perms θ₀ i).1.params k
          + Reptile.alphaCoef cfg.outer_step_size cfg.outer_iterations i
            * ((Reptile.innerLoop M cfg ss (tasks i) (perms i)
                  (Reptile.trainAfter M cfg ss tasks perms θ₀ i).1).params k
               - (Reptile.trainAfter M cfg ss tasks perms θ₀ i).1.params k)) := by
    rw [hsucc]; rfl
  refine ⟨rfl, hmain, ?_, ?_⟩
  · intro h
    rw [hmain, h]
    funext k
    ring
  · intro h
    rw [hmain, h]
    funext k
    ring

/-- Witness for claim C1: with `outer_step_size = 0` the cooling coefficient
at iteration 0 is 0, and the meta-parameters after the first outer iteration
equal the pre-iteration snapshot. -/
theorem train_interpolation_step_witness :
    Reptile.alphaCoef cfgZero.outer_step_size cfgZero.outer_iterations 0 = 0
    ∧ (Reptile.trainAfter demoOracle cfgZero [0] (fun _ => [0]) (fun _ _ => [0])
        (fun _ => (0 : ℚ)) 1).1.params
      = (Reptile.trainAfter demoOracle cfgZero [0] (fun _ => [0]) (fun _ _ => [0])
        (fun _ => (0 : ℚ)) 0).1.params :=
  ⟨by norm_num [Reptile.alphaCoef, cfgZero],
   (train_interpolation_step demoOracle cfgZero [0] (fun _ => [0]) (fun _ _ => [0])
      (fun _ => (0 : ℚ)) 0).2.2.1 (by norm_num [Reptile.alphaCoef, cfgZero])⟩

/-- Claim C3: the interpolation coefficient used by `train` at outer iteration
`i` is `outer_step_size * (1 - i / outer_iterations)`; for `outer_step_size > 0`
and `outer_iterations ≥ 1` it equals `outer_step_size` at iteration 0, strictly
decreases as `i` increases, and reaches 0 at `i = outer_iterations`. -/
theorem train_cooling_schedule {R : Type} [LinearOrderedField R] (s : R) (N : ℕ)
    (hs : 0 < s) (hN : 1 ≤ N) :
    Reptile.alphaCoef s N 0 = s
    ∧ (∀ i j : ℕ, i < j → Reptile.alphaCoef s N j < Reptile.alphaCoef s N i)
    ∧ Reptile.alphaCoef s N N = 0 := by
  have hN0 : (0 : R) < (N : R) := by exact_mod_cast Nat.pos_of_ne_zero (by omega)
  refine ⟨by simp [Reptile.alphaCoef], ?_, ?_⟩
  · intro i j hij
    unfold Reptile.alphaCoef
    have hdiv : (i : R) / (N : R) < (j : R) / (N : R) :=
      (div_lt_div_iff_of_pos_right hN0).mpr (by exact_mod_cast hij)
    exact mul_lt_mul_of_pos_left (sub_lt_sub_left hdiv 1) hs
  · unfold Reptile.alphaCoef
    rw [div_self (ne_of_gt hN0)]
    ring

/-- Witness for claim C3: with `outer_step_size = 1` and `outer_iterations = 2`
the coefficient starts at 1, is smaller at iteration 1 than at iteration 0, and
is 0 at iteration 2. -/
theorem train_cooling_schedule_witness :
    (0 : ℚ) < 1 ∧ 1 ≤ 2
    ∧ Reptile.alphaCoef (1 : ℚ) 2 0 = 1
    ∧ Reptile.alphaCoef (1 : ℚ) 2 1 < Reptile.alphaCoef (1 : ℚ) 2 0
    ∧ Reptile.alphaCoef (1 : ℚ) 2 2 = 0 :=
  ⟨by norm_num, by norm_num,
   (train_cooling_schedule (1 : ℚ) 2 (by norm_num) (by norm_num)).1,
   (train_cooling_schedule (1 : ℚ) 2 (by norm_num) (by norm_num)).2.1 0 1 (by norm_num),
   (train_cooling_schedule (1 : ℚ) 2 (by norm_num) (by norm_num)).2.2⟩

/-- Claim C9: with `outer_iterations = 0`, `train` leaves the meta-parameters
unchanged and emits no metric records. -/
theorem train_zero_outer_iterations {ι R : Type} [LinearOrderedField R]
    (M : Oracle ι R) (cfg : Config R) (ss : List R) (tasks : ℕ → List R)
    (perms : ℕ → ℕ → List ℕ) (θ₀ : ι → R) (h : cfg.outer_iterations = 0) :
    Reptile.train M cfg ss tasks perms θ₀ = (⟨θ₀, 0, 0⟩, []) := by
  unfold Reptile.train Reptile.trainAfter
  rw [h]
  rfl

/-- Witness for claim C9: a configuration with `outer_iterations = 0` returns
the initial parameters and an empty metric log. -/
theorem train_zero_outer_iterations_witness :
    cfgNoIter.outer_iterations = 0
    ∧ Reptile.train demoOracle cfgNoIter [] (fun _ => []) (fun _ _ => [])
        (fun _ => (0 : ℚ)) = (⟨fun _ => (0 : ℚ), 0, 0⟩, []) :=
  ⟨rfl, train_zero_outer_iterations demoOracle cfgNoIter [] (fun _ => [])
    (fun _ _ => []) (fun _ => (0 : ℚ)) rfl⟩

/-- The adaptation loop of `eval` appends exactly one prediction snapshot per
gradient step. -/
theorem evalAdapt_trace_length {ι R : Type} [LinearOrderedField R]
    (M : Oracle ι R) (cfg : Config R) (ss x y : List R) (θ : ι → R) :
    ∀ s, (Reptile.evalAdapt M cfg ss x y θ s).2.length = s := by
  intro s
  induction s with
  | zero => rfl
  | succ n ih => simp [Reptile.evalAdapt, ih]

/-- Claim C2: for every call to `eval`, regardless of the number of gradient
steps taken, the model's parameter state after `eval` returns is elementwise
identical to the meta-parameters before the call: `eval` snapshots them as
`meta_weights` before adaptation and restores them before returning. -/
theorem eval_restores_meta_parameters {ι R : Type} [LinearOrderedField R]
    (M : Oracle ι R) (cfg : Config R) (ss base_truth : List R) (idx : List ℕ)
    (mbs k : ℕ) (step_arg : R) (θ : ι → R) :
    (Reptile.eval M cfg ss base_truth idx mbs k step_arg θ).2.2 = θ := rfl

/-- Claim C8: `eval` with `gradient_steps = k` returns an `estimate` trace of
exactly `k + 1` prediction snapshots, whose entry 0 is the pre-adaptation
prediction over the sample space. -/
theorem eval_trace_spec {ι R : Type} [LinearOrderedField R]
    (M : Oracle ι R) (cfg : Config R) (ss base_truth : List R) (idx : List ℕ)
    (mbs k : ℕ) (step_arg : R) (θ : ι → R) :
    (Reptile.eval M cfg ss base_truth idx mbs k step_arg θ).1.length = k + 1
    ∧ (Reptile.eval M cfg ss base_truth idx mbs k step_arg θ).1.getD 0 []
        = Reptile.predict M θ ss := by
  constructor
  · simp [Reptile.eval, evalAdapt_trace_length]
  · rfl

/-- Counterexample to claim C4: `eval` called with step-size argument 2 on a
model whose construction-time `inner_step_size` is 1, starting from the single
parameter 0 with constant gradient 1, produces the post-step prediction `-1`
(one step of size 1), not the `-2` the claim's update rule
`parameter -= inner_step_size_argument * gradient` would give. -/
theorem eval_step_size_counterexample :
    (Reptile.eval demoOracle cfgEval [0] [0] [0] 1 1 2 (fun _ => (0 : ℚ))).1
      = [[0], [-1]]
    ∧ (0 : ℚ) - 2 * 1 ≠ -1 := by
  refine ⟨?_, by norm_num⟩
  norm_num [Reptile.eval, Reptile.evalAdapt, Reptile.gradStep, Reptile.predict,
    Reptile.sample_points, demoOracle, cfgEval]

/-- Claim C4 amended: every adaptation step of `eval` updates each parameter by
`parameter -= inner_step_size * gradient` where `inner_step_size` is the
construction-time configuration value; the `inner_step_size` argument passed to
`eval` is ignored, so any two argument values give identical results. -/
theorem eval_step_size_amended {ι R : Type} [LinearOrderedField R]
    (M : Oracle ι R) (cfg : Config R) (ss base_truth : List R) (idx : List ℕ)
    (mbs k : ℕ) (a b : R) (θ : ι → R) (x y : List R) (s : ℕ) :
    Reptile.eval M cfg ss base_truth idx mbs k a θ
      = Reptile.eval M cfg ss base_truth idx mbs k b θ
    ∧ (Reptile.evalAdapt M cfg ss x y θ (s + 1)).1
        = (fun kk => (Reptile.evalAdapt M cfg ss x y θ s).1 kk
            - cfg.inner_step_size
              * M.gradLoss (Reptile.evalAdapt M cfg ss x y θ s).1 x y kk) :=
  ⟨rfl, rfl⟩

/-- Each pass of the inner-loop fold increments the batch counter once per
schedule entry. -/
theorem innerLoopAux_current_batch {ι R : Type} [LinearOrderedField R]
    (M : Oracle ι R) (cfg : Config R) (ss samples : List R)
    (perms : ℕ → List ℕ) :
    ∀ (l : List (ℕ × ℕ)) (t : ℕ) (st : RunState ι R),
      ((Reptile.innerLoopAux M cfg ss samples perms l t st).2).current_batch
        = st.current_batch + l.length := by
  intro l
  induction l with
  | nil => intro t st; simp [Reptile.innerLoopAux]
  | cons jb rest ih =>
      intro t st
      rw [Reptile.innerLoopAux, ih]
      simp [Reptile.innerStep]
      omega

/-- The inner-loop iteration space has `inner_batch_size * ceil(n / m)`
entries. -/
theorem innerSchedule_length (n m : ℕ) :
    ∀ ibs, (Reptile.innerSchedule ibs n m).length = ibs * ((n + m - 1) / m) := by
  intro ibs
  induction ibs with
  | zero => simp [Reptile.innerSchedule]
  | succ j ih =>
      simp [Reptile.innerSchedule, ih, Reptile.batchStarts]
      ring

/-- Every batch offset in the schedule is `j * m` for some
`j < ceil(n / m)`. -/
theorem innerSchedule_mem {n m : ℕ} :
    ∀ {ibs : ℕ} {jb : ℕ × ℕ}, jb ∈ Reptile.innerSchedule ibs n m →
      ∃ j, j < (n + m - 1) / m ∧ jb.2 = j * m := by
  intro ibs
  induction ibs with
  | zero => intro jb h; simp [Reptile.innerSchedule] at h
  | succ i ih =>
      intro jb h
      rw [Reptile.innerSchedule, List.mem_append] at h
      rcases h with h | h
      · exact ih h
      · rw [List.mem_map] at h
        obtain ⟨b, hb, rfl⟩ := h
        rw [Reptile.batchStarts, List.mem_map] at hb
        obtain ⟨j, hj, rfl⟩ := hb
        exact ⟨j, List.mem_range.mp hj, rfl⟩

/-- A batch offset `j * m` with `j < ceil(n / m)` either leaves room for a full
window of `m` elements below `n`, or `j` is the final offset index. -/
theorem batchStart_full_or_last {n m j : ℕ} (hm : 1 ≤ m)
    (hj : j < (n + m - 1) / m) :
    j * m + m ≤ n ∨ j = (n + m - 1) / m - 1 := by
  by_cases hcase : j + 1 = (n + m - 1) / m
  · right; omega
  · left
    have h2 : j + 2 ≤ (n + m - 1) / m := by omega
    have h3 : (j + 2) * m ≤ ((n + m - 1) / m) * m := Nat.mul_le_mul_right m h2
    have h4 : ((n + m - 1) / m) * m ≤ n + m - 1 := Nat.div_mul_le_self _ _
    have h5 : (j + 2) * m = j * m + m + m := by ring
    have h6 : j * m + m + m < n + m := by
      rw [← h5]
      exact lt_of_le_of_lt (le_trans h3 h4) (by omega)
    exact le_of_lt ((add_lt_add_iff_right m).mp h6)

/-- Claim C5: one outer iteration's inner loop performs exactly
`inner_batch_size * ceil(sample_count / meta_batch_size)` gradient steps (the
batch counter advances by that amount, matching the schedule length), and each
step's mini-batch window `perm[batch : batch + meta_batch_size]` out of its
fresh length-`n` permutation has `min meta_batch_size (n - batch)` elements:
full except possibly at the single last batch offset. -/
theorem train_inner_loop_schedule {ι R : Type} [LinearOrderedField R]
    (M : Oracle ι R) (cfg : Config R) (ss samples : List R)
    (perms : ℕ → List ℕ) (st : RunState ι R) (hm : 1 ≤ cfg.meta_batch_size) :
    (Reptile.innerLoop M cfg ss samples perms st).current_batch
      = st.current_batch
        + cfg.inner_batch_size
          * ((ss.length + cfg.meta_batch_size - 1) / cfg.meta_batch_size)
    ∧ (Reptile.innerSchedule cfg.inner_batch_size ss.length
        cfg.meta_batch_size).length
      = cfg.inner_batch_size
          * ((ss.length + cfg.meta_batch_size - 1) / cfg.meta_batch_size)
    ∧ ∀ jb ∈ Reptile.innerSchedule cfg.inner_batch_size ss.length
        cfg.meta_batch_size,
        (∀ perm : List ℕ, perm.length = ss.length →
          ((perm.drop jb.2).take cfg.meta_batch_size).length
            = min cfg.meta_batch_size (ss.length - jb.2))
        ∧ (jb.2 + cfg.meta_batch_size ≤ ss.length
           ∨ jb.2 = ((ss.length + cfg.meta_batch_size - 1) / cfg.meta_batch_size
                      - 1) * cfg.meta_batch_size) := by
  refine ⟨?_, innerSchedule_length ss.length cfg.meta_batch_size _, ?_⟩
  · rw [Reptile.innerLoop, innerLoopAux_current_batch,
      innerSchedule_length ss.length cfg.meta_batch_size]
  · intro jb hjb
    obtain ⟨j, hj, hb⟩ := innerSchedule_mem hjb
    constructor
    · intro perm hperm
      simp [List.length_take, List.length_drop, hperm]
    · rcases batchStart_full_or_last hm hj with h | h
      · left; rw [hb]; exact h
      · right; rw [hb, h]

/-- Witness for claim C5: with `inner_batch_size = 1`, `meta_batch_size = 2`
and a 3-point sample space the inner loop takes `1 * ceil(3 / 2) = 2` gradient
steps, with a full first window and a short last one. -/
theorem train_inner_loop_schedule_witness :
    1 ≤ cfgBatch.meta_batch_size
    ∧ ((Reptile.innerLoop demoOracle cfgBatch [0, 0, 0] [0, 0, 0]
          (fun _ => [0, 1, 2]) demoState).current_batch
        = demoState.current_batch
          + cfgBatch.inner_batch_size
            * ((List.length ([0, 0, 0] : List ℚ) + cfgBatch.meta_batch_size - 1)
                / cfgBatch.meta_batch_size)
      ∧ (Reptile.innerSchedule cfgBatch.inner_batch_size
          (List.length ([0, 0, 0] : List ℚ)) cfgBatch.meta_batch_size).length
        = cfgBatch.inner_batch_size
            * ((List.length ([0, 0, 0] : List ℚ) + cfgBatch.meta_batch_size - 1)
                / cfgBatch.meta_batch_size)
      ∧ ∀ jb ∈ Reptile.innerSchedule cfgBatch.inner_batch_size
          (List.length ([0, 0, 0] : List ℚ)) cfgBatch.meta_batch_size,
          (∀ perm : List ℕ, perm.length = List.length ([0, 0, 0] : List ℚ) →
            ((perm.drop jb.2).take cfgBatch.meta_batch_size).length
              = min cfgBatch.meta_batch_size
                  (List.length ([0, 0, 0] : List ℚ) - jb.2))
          ∧ (jb.2 + cfgBatch.meta_batch_size ≤ List.length ([0, 0, 0] : List ℚ)
             ∨ jb.2 = ((List.length ([0, 0, 0] : List ℚ)
                        + cfgBatch.meta_batch_size - 1) / cfgBatch.meta_batch_size
                        - 1) * cfgBatch.meta_batch_size)) :=
  ⟨by norm_num [cfgBatch],
   train_inner_loop_schedule demoOracle cfgBatch [0, 0, 0] [0, 0, 0]
     (fun _ => [0, 1, 2]) demoState (by norm_num [cfgBatch])⟩

/-- The `i`-th entry of `meta_sample r c` is `-r + i * (2r / (c - 1))`. -/
theorem meta_sample_getD {R : Type} [Field R] (r : R) {c i : ℕ} (h : i < c) :
    (meta_sample r c).getD i 0
      = -r + (i : R) * (2 * r / ((c : R) - 1)) := by
  rw [meta_sample, List.getD_eq_getElem?_getD, List.getElem?_map,
    List.getElem?_range h]
  rfl

/-- Claim C6: for radius `r > 0` and count `c ≥ 2`, `meta_sample r c` is an
ordered sequence of exactly `c` values, strictly increasing and evenly spaced
(consecutive gap `2r / (c - 1)`), with first element `-r` and last element
`r`. -/
theorem meta_sample_spec (r : ℝ) (c : ℕ) (hr : 0 < r) (hc : 2 ≤ c) :
    (meta_sample r c).length = c
    ∧ (meta_sample r c).Pairwise (· < ·)
    ∧ (∀ i, i + 1 < c →
        (meta_sample r c).getD (i + 1) 0 - (meta_sample r c).getD i 0
          = 2 * r / ((c : ℝ) - 1))
    ∧ (meta_sample r c).getD 0 0 = -r
    ∧ (meta_sample r c).getD (c - 1) 0 = r := by
  have hc2 : (2 : ℝ) ≤ (c : ℝ) := by exact_mod_cast hc
  have hcne : ((c : ℝ) - 1) ≠ 0 := by linarith
  have hstep : (0 : ℝ) < 2 * r / ((c : ℝ) - 1) :=
    div_pos (by linarith) (by linarith)
  refine ⟨by simp [meta_sample], ?_, ?_, ?_, ?_⟩
  · rw [meta_sample, List.pairwise_map]
    refine (List.pairwise_lt_range c).imp ?_
    intro a b hab
    have hab2 : (a : ℝ) < (b : ℝ) := by exact_mod_cast hab
    have := mul_lt_mul_of_pos_right hab2 hstep
    linarith
  · intro i hi
    rw [meta_sample_getD r hi, meta_sample_getD r (by omega : i < c)]
    push_cast
    ring
  · rw [meta_sample_getD r (by omega : 0 < c)]
    simp
  · rw [meta_sample_getD r (by omega : c - 1 < c)]
    have h1c : 1 ≤ c := by omega
    have hcast : ((c - 1 : ℕ) : ℝ) = (c : ℝ) - 1 := by
      push_cast [h1c]
      ring
    rw [hcast, mul_comm, div_mul_cancel₀ _ hcne]
    ring

/-- Witness for claim C6: `meta_sample 1 2` has the claimed shape. -/
theorem meta_sample_spec_witness :
    (0 : ℝ) < 1 ∧ 2 ≤ 2
    ∧ ((meta_sample (1 : ℝ) 2).length = 2
      ∧ (meta_sample (1 : ℝ) 2).Pairwise (· < ·)
      ∧ (∀ i, i + 1 < 2 →
          (meta_sample (1 : ℝ) 2).getD (i + 1) 0
            - (meta_sample (1 : ℝ) 2).getD i 0 = 2 * 1 / ((2 : ℕ) - 1 : ℝ))
      ∧ (meta_sample (1 : ℝ) 2).getD 0 0 = -1
      ∧ (meta_sample (1 : ℝ) 2).getD (2 - 1) 0 = 1) :=
  ⟨by norm_num, by norm_num, meta_sample_spec 1 2 (by norm_num) (by norm_num)⟩

/-- Claim C7: `sample` rejects every task kind other than the logistic family
with the unsupported-task error (`NotImplementedError` in the source) and
produces no targets; for the logistic family it returns the targets obtained by
evaluating the task over the fixed sample space together with a 3-component
`theta`. -/
theorem sample_task_spec (task : TaskKind) (ss : List ℝ) (u1 u2 u3 : ℝ) :
    (task ≠ TaskKind.logistic →
      sample task ss u1 u2 u3 = Except.error SampleError.notImplementedError)
    ∧ ∃ targets theta,
        sample TaskKind.logistic ss u1 u2 u3 = Except.ok (targets, theta)
        ∧ targets = ss.map (fun x => logistic x theta)
        ∧ theta.length = 3 := by
  constructor
  · intro h
    rw [sample, if_pos h]
  · refine ⟨ss.map (fun x => logistic x [u1, u2, u3]), [u1, u2, u3], ?_, rfl, rfl⟩
    rw [sample, if_neg (by simp)]

/-- Witness for claim C7: requesting the (unsupported) sine family fails with
the unsupported-task error. -/
theorem sample_task_spec_witness :
    TaskKind.sine ≠ TaskKind.logistic
    ∧ sample TaskKind.sine [0] 1 1 0
        = Except.error SampleError.notImplementedError :=
  ⟨by decide, (sample_task_spec TaskKind.sine [0] 1 1 0).1 (by decide)⟩

/-- The logistic curve with positive amplitude takes values strictly between 0
and the amplitude. -/
theorem logistic_pos_lt (x u1 u2 u3 : ℝ) (h : 0 < u1) :
    0 < logistic x [u1, u2, u3] ∧ logistic x [u1, u2, u3] < u1 := by
  rw [logistic]
  simp only [List.getD_cons_zero, List.getD_cons_succ]
  have hE : 0 < Real.exp (-1 * u2 * (x - u3)) := Real.exp_pos _
  exact ⟨div_pos h (by linarith), div_lt_self h (by linarith)⟩

/-- The logistic curve with positive amplitude and slope is strictly
increasing. -/
theorem logistic_lt_logistic (u1 u2 u3 : ℝ) (h1 : 0 < u1) (h2 : 0 < u2)
    {x y : ℝ} (hx : x < y) :
    logistic x [u1, u2, u3] < logistic y [u1, u2, u3] := by
  rw [logistic, logistic]
  simp only [List.getD_cons_zero, List.getD_cons_succ]
  have harg : -1 * u2 * (y - u3) < -1 * u2 * (x - u3) := by nlinarith
  have hexp : Real.exp (-1 * u2 * (y - u3)) < Real.exp (-1 * u2 * (x - u3)) :=
    Real.exp_lt_exp.mpr harg
  have hpos : 0 < 1 + Real.exp (-1 * u2 * (y - u3)) := by positivity
  exact div_lt_div_of_pos_left h1 hpos (by linarith)

/-- Claim C10: every logistic task sampled with amplitude and slope in
`[1, 10]` and shift in `[-1, 1]` over a strictly increasing sample space has
strictly increasing targets, each lying strictly between 0 and the amplitude
`theta[0]`. -/
theorem logistic_task_targets (u1 u2 u3 : ℝ) (h1 : 1 ≤ u1) (h2 : u1 ≤ 10)
    (h3 : 1 ≤ u2) (h4 : u2 ≤ 10) (h5 : -1 ≤ u3) (h6 : u3 ≤ 1)
    (xs : List ℝ) (hxs : xs.Pairwise (· < ·)) (targets theta : List ℝ)
    (hok : sample TaskKind.logistic xs u1 u2 u3 = Except.ok (targets, theta)) :
    targets.Pairwise (· < ·) ∧ ∀ t ∈ targets, 0 < t ∧ t < theta.getD 0 0 := by
  have hu1 : (0 : ℝ) < u1 := by linarith
  have hu2 : (0 : ℝ) < u2 := by linarith
  rw [sample, if_neg (by simp)] at hok
  simp only [Except.ok.injEq, Prod.mk.injEq] at hok
  obtain ⟨ht, hθ⟩ := hok
  constructor
  · rw [← ht, List.pairwise_map]
    exact hxs.imp (fun hab => logistic_lt_logistic u1 u2 u3 hu1 hu2 hab)
  · intro t htmem
    rw [← ht, List.mem_map] at htmem
    obtain ⟨x, hx, rfl⟩ := htmem
    rw [← hθ]
    simp only [List.getD_cons_zero]
    exact logistic_pos_lt x u1 u2 u3 hu1

/-- Witness for claim C10: the logistic task with `theta = [1, 1, 0]` over the
sample space `[0, 1]` has strictly increasing targets strictly between 0 and
the amplitude. -/
theorem logistic_task_targets_witness :
    ((1 : ℝ) ≤ 1 ∧ (1 : ℝ) ≤ 10 ∧ (-1 : ℝ) ≤ 0 ∧ (0 : ℝ) ≤ 1
      ∧ ([(0 : ℝ), 1]).Pairwise (· < ·))
    ∧ (([(0 : ℝ), 1].map (fun x => logistic x [1, 1, 0])).Pairwise (· < ·)
      ∧ ∀ t ∈ [(0 : ℝ), 1].map (fun x => logistic x [1, 1, 0]),
          0 < t ∧ t < ([(1 : ℝ), 1, 0]).getD 0 0) :=
  ⟨⟨by norm_num, by norm_num, by norm_num, by norm_num, by simp⟩,
   logistic_task_targets 1 1 0 (by norm_num) (by norm_num) (by norm_num)
     (by norm_num) (by norm_num) (by norm_num) [0, 1] (by simp)
     ([0, 1].map (fun x => logistic x [1, 1, 0])) [1, 1, 0]
     (by rw [sample, if_neg (by simp)])⟩
